import Mathlib

/-!
# The in-memory event store of `wb-calendar`

A shallow embedding of `internal/calendar/calendar.go`, of the update and delete
handlers of `internal/handler/handlers.go` and of the parts of Go's `time`
package that they read, followed by the properties of the store.

* Go's `int` is taken at its 64-bit width; it is embedded as `Int` and the one
  arithmetic operation of the store, `c.nextID++`, wraps around in two's
  complement (`wrapInt`).
* `map[int]Event` is an association list with pairwise distinct keys
  (`AList`).  A `range` over the map visits the entries in the order of that
  list; Go leaves the order unspecified, so the properties of the queries are
  stated up to a permutation of the result.
* The mutex only serializes the calls; every method is embedded as a function
  from the state before the call to the value returned and the state after it.
-/

namespace WbCalendar

/-! ## Go's `int` -/

/-- Smallest value of Go's `int` on a 64-bit platform. -/
def minInt : Int := -(2 ^ 63)

/-- Largest value of Go's `int` on a 64-bit platform. -/
def maxInt : Int := 2 ^ 63 - 1

/-- Two's-complement wrap-around of a mathematical integer into Go's `int`. -/
def wrapInt (x : Int) : Int := (x + 2 ^ 63) % 2 ^ 64 - 2 ^ 63

/-! ## The part of Go's `time` package used by the store

`time.Time` is embedded by the two quantities its accessors read: the number of
seconds since the package's absolute epoch (January 1 of the year
`absoluteZeroYear`, a Monday) counted in the location of the value, which is
what `Time.abs` returns, and the nanoseconds within the second.  `Year`,
`Month`, `Day`, `YearDay` and `ISOWeek` follow `absDate`, `absWeekday` and
`Time.ISOWeek` of the package as written up to release 1.22 (later releases
compute the same fields of the proleptic Gregorian calendar); `Date` follows
`time.Date` for a location without offset.  The second count is a `uint64` in
Go, so the values of `Time` that exist there have `abs < 2 ^ 64`. -/

def secondsPerDay : Nat := 86400

def daysPer400Years : Nat := 146097

def daysPer100Years : Nat := 36524

def daysPer4Years : Nat := 1461

/-- The year whose first day is second zero of the absolute time scale. -/
def absoluteZeroYear : Int := -292277022399

/-- A value of `time.Time`: seconds since the absolute epoch in the location of
the value, and nanoseconds within the second. -/
structure Time where
  abs : Nat
  nsec : Nat
deriving DecidableEq

/-- Gregorian leap-year rule (`isLeap`). -/
def isLeap (year : Int) : Bool :=
  year % 4 == 0 && (year % 100 != 0 || year % 400 == 0)

/-- The table `daysBefore`: days of a non-leap year before month `m + 1`. -/
def daysBefore : Nat → Nat
  | 0 => 0
  | 1 => 31
  | 2 => 59
  | 3 => 90
  | 4 => 120
  | 5 => 151
  | 6 => 181
  | 7 => 212
  | 8 => 243
  | 9 => 273
  | 10 => 304
  | 11 => 334
  | _ => 365

/-- First half of `absDate`: the year and the zero-based day of the year of an
absolute second count, by cutting off 400-, 100-, 4- and 1-year cycles. -/
def absYearDay (abs : Nat) : Int × Nat :=
  let d := abs / secondsPerDay
  let n := d / daysPer400Years
  let y := 400 * n
  let d := d - daysPer400Years * n
  let n := d / daysPer100Years
  let n := n - n / 4
  let y := y + 100 * n
  let d := d - daysPer100Years * n
  let n := d / daysPer4Years
  let y := y + 4 * n
  let d := d - daysPer4Years * n
  let n := d / 365
  let n := n - n / 4
  let y := y + n
  let d := d - 365 * n
  ((y : Int) + absoluteZeroYear, d)

/-- Second half of `absDate`: month (1..12) and day of the month of the
zero-based day `yday` of a year, `leap` being `isLeap(year)`. -/
def monthDay (leap : Bool) (yday : Nat) : Nat × Nat :=
  if leap && yday == 31 + 29 - 1 then (2, 29)
  else
    let day := if leap && yday > 31 + 29 - 1 then yday - 1 else yday
    let month := day / 31
    let fin := daysBefore (month + 1)
    if day ≥ fin then (month + 2, day - fin + 1)
    else (month + 1, day - daysBefore month + 1)

def Time.Year (t : Time) : Int := (absYearDay t.abs).1

/-- Day of the year, 1..365 or 1..366. -/
def Time.YearDay (t : Time) : Int := ((absYearDay t.abs).2 : Int) + 1

def Time.Month (t : Time) : Nat :=
  (monthDay (isLeap (absYearDay t.abs).1) (absYearDay t.abs).2).1

def Time.Day (t : Time) : Nat :=
  (monthDay (isLeap (absYearDay t.abs).1) (absYearDay t.abs).2).2

/-- Day of the week of an absolute second count, Sunday = 0 (`absWeekday`); the
addition is the package's `uint64` addition. -/
def absWeekday (abs : Nat) : Nat :=
  (abs + 1 * secondsPerDay) % 2 ^ 64 % (7 * secondsPerDay) / secondsPerDay

/-- ISO 8601 year and week number (`Time.ISOWeek`): move to the Thursday of the
Monday-based week, then take its year and `yday / 7 + 1`.  The addition is the
package's `uint64` addition. -/
def Time.ISOWeek (t : Time) : Int × Int :=
  let d : Int := 4 - (absWeekday t.abs : Int)
  let d : Int := if d = 4 then -3 else d
  let abs := (((t.abs : Int) + d * (secondsPerDay : Int)) % 2 ^ 64).toNat
  let yd := absYearDay abs
  (yd.1, ((yd.2 / 7 : Nat) : Int) + 1)

/-- Days from the absolute epoch to January 1 of `year` (`daysSinceEpoch`). -/
def daysSinceEpoch (year : Int) : Nat :=
  let y := (year - absoluteZeroYear).toNat
  let n := y / 400
  let y := y - 400 * n
  let d := daysPer400Years * n
  let n := y / 100
  let y := y - 100 * n
  let d := d + daysPer100Years * n
  let n := y / 4
  let y := y - 4 * n
  let d := d + daysPer4Years * n
  d + 365 * y

/-- The constructor `time.Date(year, month, day, hour, min, sec, nsec, time.UTC)`
for arguments in their normal ranges. -/
def Date (year : Int) (month day hour min sec nsec : Nat) : Time :=
  let d := daysSinceEpoch year + daysBefore (month - 1)
  let d := if isLeap year && month ≥ 3 then d + 1 else d
  let d := d + (day - 1)
  { abs := d * secondsPerDay + (hour * 3600 + min * 60 + sec), nsec := nsec }

/-! ## Errors (`pkg/error_service.go`) -/

inductive StoreError where
  | ErrEventNotFound
  | ErrInvalidDate
deriving DecidableEq

/-- The message an error carries, as given to `errors.New`. -/
def StoreError.Error : StoreError → String
  | .ErrEventNotFound => "event not found"
  | .ErrInvalidDate => "invalid date format"

/-! ## The store (`internal/calendar/calendar.go`) -/

/-- Modelled from the spec: the declaration of the struct `Event` is not among
the sources.  Its four fields are the ones the composite literal in
`CreateEvent` fills and the spec lists (id, owner, occurs_on, title), with the
types of the arguments of `CreateEvent`. -/
structure Event where
  ID : Int
  UserID : Int
  Date : Time
  Title : String
deriving DecidableEq

/-- The type `map[int]Event`. -/
abbrev EventMap := AList (fun _ : Int => Event)

/-- The struct `Calendar` without its mutex. -/
structure Calendar where
  events : EventMap
  nextID : Int
deriving DecidableEq

def NewCalendar : Calendar :=
  { events := ∅, nextID := 1 }

/-- `CreateEvent`: the event, the error (always `nil`) and the state after. -/
def CreateEvent (c : Calendar) (userID : Int) (date : Time) (title : String) :
    Event × Option StoreError × Calendar :=
  let event : Event := { ID := c.nextID, UserID := userID, Date := date, Title := title }
  let events := c.events.insert event.ID event
  (event, none, { events := events, nextID := wrapInt (c.nextID + 1) })

/-- `UpdateEvent`: the error and the state after. -/
def UpdateEvent (c : Calendar) (id : Int) (date : Time) (title : String) :
    Option StoreError × Calendar :=
  match c.events.lookup id with
  | none => (some StoreError.ErrEventNotFound, c)
  | some event =>
    let event := { event with Date := date, Title := title }
    (none, { c with events := c.events.insert id event })

/-- `DeleteEvent`: the error and the state after. -/
def DeleteEvent (c : Calendar) (id : Int) : Option StoreError × Calendar :=
  match c.events.lookup id with
  | none => (some StoreError.ErrEventNotFound, c)
  | some _ => (none, { c with events := c.events.erase id })

def isSameDay (t1 t2 : Time) : Bool :=
  t1.Year == t2.Year && t1.YearDay == t2.YearDay

/-- `GetEventsForDay`: one pass over the map, appending the events that match. -/
def GetEventsForDay (c : Calendar) (userID : Int) (day : Time) : List Event :=
  c.events.foldl
    (fun result _ event =>
      if event.UserID == userID && isSameDay event.Date day then result ++ [event]
      else result)
    []

def GetEventsForWeek (c : Calendar) (userID : Int) (day : Time) : List Event :=
  let year := day.ISOWeek.1
  let week := day.ISOWeek.2
  c.events.foldl
    (fun result _ event =>
      let y := event.Date.ISOWeek.1
      let w := event.Date.ISOWeek.2
      if event.UserID == userID && y == year && w == week then result ++ [event]
      else result)
    []

def GetEventsForMonth (c : Calendar) (userID : Int) (day : Time) : List Event :=
  c.events.foldl
    (fun result _ event =>
      if event.UserID == userID && event.Date.Year == day.Year
          && event.Date.Month == day.Month then result ++ [event]
      else result)
    []

/-! ## Serialized runs -/

/-- One call on the store. -/
inductive Op where
  | create (userID : Int) (date : Time) (title : String)
  | update (id : Int) (date : Time) (title : String)
  | delete (id : Int)
  | forDay (userID : Int) (day : Time)
  | forWeek (userID : Int) (day : Time)
  | forMonth (userID : Int) (day : Time)
deriving DecidableEq

/-- The state after one call; the queries leave it as it is. -/
def step (c : Calendar) : Op → Calendar
  | .create userID date title => (CreateEvent c userID date title).2.2
  | .update id date title => (UpdateEvent c id date title).2
  | .delete id => (DeleteEvent c id).2
  | .forDay _ _ => c
  | .forWeek _ _ => c
  | .forMonth _ _ => c

/-- The state after a sequence of calls made one after the other. -/
def run (c : Calendar) : List Op → Calendar
  | [] => c
  | op :: ops => run (step c op) ops

/-- The ids returned by the `CreateEvent` calls of a sequence, in call order. -/
def createdIDs (c : Calendar) : List Op → List Int
  | [] => []
  | .create userID date title :: ops =>
    (CreateEvent c userID date title).1.ID
      :: createdIDs (CreateEvent c userID date title).2.2 ops
  | op :: ops => createdIDs (step c op) ops

/-- Number of `CreateEvent` calls in a sequence. -/
def countCreates : List Op → Nat
  | [] => 0
  | .create _ _ _ :: ops => countCreates ops + 1
  | _ :: ops => countCreates ops

/-- Number of stored events (`len(c.events)`). -/
def Calendar.len (c : Calendar) : Nat := c.events.entries.length

/-- The stored events, one for each key of the map. -/
def Calendar.stored (c : Calendar) : List Event := c.events.entries.map Sigma.snd

/-- Whether a call is a `CreateEvent`, as a number. -/
def creates : Op → Nat
  | .create _ _ _ => 1
  | _ => 0

/-- What holds of the store after `n` calls of `CreateEvent` on a new store: the
counter is the wrapped `1 + n`, and every entry is an event stored under its own
ID, which is the wrapped `1 + i` for one of the earlier creates `i`. -/
def Inv (c : Calendar) (n : Nat) : Prop :=
  c.nextID = wrapInt (1 + (n : Int))
    ∧ ∀ k e, c.events.lookup k = some e →
        e.ID = k ∧ ∃ i : Nat, i < n ∧ k = wrapInt (1 + (i : Int))

/-- The zero-based day of the year of a month and a day of the month: the
inverse of `monthDay`, as `time.Date` computes it. -/
def ydayOf (leap : Bool) (md : Nat × Nat) : Nat :=
  daysBefore (md.1 - 1) + (if leap && md.1 ≥ 3 then 1 else 0) + md.2 - 1

/-! ## The clock reading of a time -/

def Time.Hour (t : Time) : Nat := t.abs % secondsPerDay / 3600

def Time.Minute (t : Time) : Nat := t.abs % 3600 / 60

def Time.Second (t : Time) : Nat := t.abs % 60

def Time.Nanosecond (t : Time) : Nat := t.nsec

/-- The time on the day of `t` that reads the given hour, minute, second and
nanosecond. -/
def withClock (t : Time) (hour min sec nsec : Nat) : Time :=
  { abs := t.abs / secondsPerDay * secondsPerDay + (hour * 3600 + min * 60 + sec),
    nsec := nsec }

/-! ## Weeks, in the words of the spec -/

/-- Number of days of a month of a year (`daysIn`). -/
def daysIn (month : Nat) (year : Int) : Nat :=
  if month == 2 && isLeap year then 29 else daysBefore month - daysBefore (month - 1)

/-- Value of a decimal digit, if the character is one. -/
def digit (ch : Char) : Option Nat :=
  if ch.isDigit then some (ch.toNat - 48) else none

/-- The call `time.Parse("2006-01-02", s)`: four digits, a hyphen, two digits, a
hyphen, two digits and nothing else, with the month in 1..12 and the day in the
month; the result is midnight UTC of that day, `none` stands for an error. -/
def parseDate (s : String) : Option Time :=
  match s.data with
  | [y1, y2, y3, y4, '-', m1, m2, '-', d1, d2] =>
    match digit y1, digit y2, digit y3, digit y4, digit m1, digit m2, digit d1, digit d2 with
    | some a, some b, some c, some d, some e, some f, some g, some h =>
      let year : Int := ((1000 * a + 100 * b + 10 * c + d : Nat) : Int)
      let month := 10 * e + f
      let day := 10 * g + h
      if month = 0 ∨ 12 < month then none
      else if day < 1 ∨ day > daysIn month year then none
      else some (Date year month day 0 0 0 0)
    | _, _, _, _, _, _, _, _ => none
  | _ => none

def StatusOK : Nat := 200

def StatusBadRequest : Nat := 400

def StatusInternalServerError : Nat := 500

def StatusServiceUnavailable : Nat := 503

/-- What a handler writes: the status and the JSON object, which holds either an
error text under `error` or, for the two handlers here, a text under `result`. -/
structure Response where
  status : Nat
  error : Option String
  result : Option String
deriving DecidableEq

/-- The function `response.JSONError`. -/
def JSONError (status : Nat) (msg : String) : Response :=
  { status := status, error := some msg, result := none }

/-- The function `response.JSONResult` for a text. -/
def JSONResult (data : String) : Response :=
  { status := StatusOK, error := none, result := some data }

structure UpdateEventRequest where
  ID : Int
  Date : String
  Title : String
deriving DecidableEq

structure DeleteEventRequest where
  ID : Int
deriving DecidableEq

/-- `UpdateEventHandler`.  Decoding the body is the work of `encoding/json` and
of gin; the request is given by its content type and by what decoding yields,
`none` when it fails. -/
def UpdateEventHandler (c : Calendar) (contentType : String)
    (decoded : Option UpdateEventRequest) : Response × Calendar :=
  match decoded with
  | none =>
    if contentType == "application/json" then
      (JSONError StatusBadRequest "invalid JSON request body", c)
    else (JSONError StatusBadRequest "invalid form data", c)
  | some req =>
    if req.ID ≤ 0 then (JSONError StatusBadRequest "id must be positive", c)
    else if req.Title == "" then (JSONError StatusBadRequest "title cannot be empty", c)
    else
      match parseDate req.Date with
      | none => (JSONError StatusBadRequest "invalid date format, expected YYYY-MM-DD", c)
      | some date =>
        match UpdateEvent c req.ID date req.Title with
        | (some err, c') =>
          if err.Error == "event not found" then
            (JSONError StatusServiceUnavailable "event not found", c')
          else (JSONError StatusInternalServerError "failed to update event", c')
        | (none, c') => (JSONResult "event updated successfully", c')

/-- `DeleteEventHandler`, with the request given as for `UpdateEventHandler`. -/
def DeleteEventHandler (c : Calendar) (contentType : String)
    (decoded : Option DeleteEventRequest) : Response × Calendar :=
  match decoded with
  | none =>
    if contentType == "application/json" then
      (JSONError StatusBadRequest "invalid JSON request body", c)
    else (JSONError StatusBadRequest "invalid form data", c)
  | some req =>
    if req.ID ≤ 0 then (JSONError StatusBadRequest "id must be positive", c)
    else
      match DeleteEvent c req.ID with
      | (some err, c') =>
        if err.Error == "event not found" then
          (JSONError StatusServiceUnavailable "event not found", c')
        else (JSONError StatusInternalServerError "failed to delete event", c')
      | (none, c') => (JSONResult "event deleted successfully", c')

/-! ## Arithmetic of the wrapped counter -/

theorem wrapInt_of_inRange (x : Int) (h1 : minInt ≤ x) (h2 : x ≤ maxInt) : wrapInt x = x := by
  unfold wrapInt minInt maxInt at *
  omega

theorem wrapInt_inRange (x : Int) : minInt ≤ wrapInt x ∧ wrapInt x ≤ maxInt := by
  unfold wrapInt minInt maxInt
  omega

theorem wrapInt_wrapInt_add (x : Int) (n : Int) :
    wrapInt (wrapInt (x + 1) + n) = wrapInt (x + (n + 1)) := by
  unfold wrapInt
  omega

/-! ## The map -/

theorem length_erase_of_lookup {m : EventMap} {id : Int} {e : Event}
    (h : m.lookup id = some e) : (m.erase id).entries.length + 1 = m.entries.length := by
  have hm : (⟨id, e⟩ : Sigma fun _ : Int => Event) ∈ m.entries := AList.mem_lookup_iff.mp h
  show (List.kerase id m.entries).length + 1 = m.entries.length
  unfold List.kerase
  exact List.length_eraseP_add_one hm (by simp)

theorem length_insert_of_lookup {m : EventMap} {id : Int} {e e' : Event}
    (h : m.lookup id = some e) : (m.insert id e').entries.length = m.entries.length := by
  rw [AList.insert_entries, List.length_cons]
  exact length_erase_of_lookup h

theorem mem_stored_iff (c : Calendar) (e : Event) :
    e ∈ c.stored ↔ ∃ k, c.events.lookup k = some e := by
  simp only [Calendar.stored, List.mem_map]
  constructor
  · rintro ⟨⟨k, e'⟩, hmem, rfl⟩
    exact ⟨k, AList.mem_lookup_iff.mpr hmem⟩
  · rintro ⟨k, hk⟩
    exact ⟨⟨k, e⟩, AList.mem_lookup_iff.mp hk, rfl⟩

/-! ## Dates -/

theorem isLeap_iff (y : Int) :
    isLeap y = true ↔ y % 4 = 0 ∧ (y % 100 ≠ 0 ∨ y % 400 = 0) := by
  simp [isLeap]

/-- The zero-based day of the year is below the length of the year. -/
theorem absYearDay_lt (abs : Nat) :
    (absYearDay abs).2 < 365
      ∨ ((absYearDay abs).2 = 365 ∧ isLeap (absYearDay abs).1 = true) := by
  rw [isLeap_iff]
  simp only [absYearDay, secondsPerDay, daysPer400Years, daysPer100Years, daysPer4Years,
    absoluteZeroYear]
  generalize abs / 86400 = d0
  generalize hn1 : d0 / 146097 = n1
  generalize hd1 : d0 - 146097 * n1 = d1
  have hd1lt : d1 < 146097 := by omega
  generalize hq2 : d1 / 36524 = q2
  have hq2c : q2 = 0 ∨ q2 = 1 ∨ q2 = 2 ∨ q2 = 3 ∨ q2 = 4 := by omega
  generalize hn2 : q2 - q2 / 4 = n2
  generalize hd2 : d1 - 36524 * n2 = d2
  generalize hn3 : d2 / 1461 = n3
  generalize hd3 : d2 - 1461 * n3 = d3
  have hd3lt : d3 < 1461 := by omega
  generalize hq4 : d3 / 365 = q4
  have hq4c : q4 = 0 ∨ q4 = 1 ∨ q4 = 2 ∨ q4 = 3 ∨ q4 = 4 := by omega
  generalize hn4 : q4 - q4 / 4 = n4
  rcases hq2c with h | h | h | h | h <;> rcases hq4c with h' | h' | h' | h' | h' <;>
    subst h h' <;> omega

set_option maxRecDepth 100000 in
theorem ydayOf_monthDay_leap : ∀ yday < 366, ydayOf true (monthDay true yday) = yday := by
  decide

set_option maxRecDepth 100000 in
theorem ydayOf_monthDay_common : ∀ yday < 365, ydayOf false (monthDay false yday) = yday := by
  decide

theorem monthDay_injective (leap : Bool) (y1 y2 : Nat)
    (h1 : y1 < 365 ∨ (y1 = 365 ∧ leap = true)) (h2 : y2 < 365 ∨ (y2 = 365 ∧ leap = true))
    (h : monthDay leap y1 = monthDay leap y2) : y1 = y2 := by
  cases leap with
  | true =>
    rw [← ydayOf_monthDay_leap y1 (by omega), ← ydayOf_monthDay_leap y2 (by omega), h]
  | false =>
    have h1' : y1 < 365 := by simpa using h1
    have h2' : y2 < 365 := by simpa using h2
    rw [← ydayOf_monthDay_common y1 h1', ← ydayOf_monthDay_common y2 h2', h]

/-- Same year and same day of the year is the same as same year, month and day
of the month. -/
theorem isSameDay_iff_ymd (t1 t2 : Time) :
    isSameDay t1 t2 = true
      ↔ t1.Year = t2.Year ∧ t1.Month = t2.Month ∧ t1.Day = t2.Day := by
  simp only [isSameDay, Time.Year, Time.YearDay, Time.Month, Time.Day, Bool.and_eq_true,
    beq_iff_eq, add_left_inj, Nat.cast_inj]
  constructor
  · rintro ⟨hy, hd⟩
    rw [hy, hd]
    exact ⟨rfl, rfl, rfl⟩
  · rintro ⟨hy, hm, hd⟩
    refine ⟨hy, ?_⟩
    have b1 := absYearDay_lt t1.abs
    have b2 := absYearDay_lt t2.abs
    rw [hy] at hm hd b1
    exact monthDay_injective _ _ _ b1 b2 (Prod.ext hm hd)

theorem isSameDay_self (t : Time) : isSameDay t t = true := by
  simp [isSameDay]

/-! ## The loop of the queries -/

/-- The loop shared by the three queries computes a filter of the stored events. -/
theorem foldl_append_filter (p : Event → Bool) (l : List (Sigma fun _ : Int => Event)) :
    ∀ acc : List Event,
      l.foldl (fun result s => if p s.2 then result ++ [s.2] else result) acc
        = acc ++ (l.map Sigma.snd).filter p := by
  induction l with
  | nil => intro acc; simp
  | cons s l ih =>
    intro acc
    rw [List.foldl_cons, ih]
    cases hp : p s.2 <;> simp [List.filter_cons, hp]

theorem getEventsForDay_eq (c : Calendar) (userID : Int) (day : Time) :
    GetEventsForDay c userID day
      = c.stored.filter (fun e => e.UserID == userID && isSameDay e.Date day) := by
  simp only [GetEventsForDay, AList.foldl, Calendar.stored]
  rw [foldl_append_filter (fun e => e.UserID == userID && isSameDay e.Date day)]
  simp

theorem getEventsForWeek_eq (c : Calendar) (userID : Int) (day : Time) :
    GetEventsForWeek c userID day
      = c.stored.filter (fun e => e.UserID == userID && e.Date.ISOWeek.1 == day.ISOWeek.1
          && e.Date.ISOWeek.2 == day.ISOWeek.2) := by
  simp only [GetEventsForWeek, AList.foldl, Calendar.stored]
  rw [foldl_append_filter (fun e => e.UserID == userID && e.Date.ISOWeek.1 == day.ISOWeek.1
          && e.Date.ISOWeek.2 == day.ISOWeek.2)]
  simp

theorem getEventsForMonth_eq (c : Calendar) (userID : Int) (day : Time) :
    GetEventsForMonth c userID day
      = c.stored.filter (fun e => e.UserID == userID && e.Date.Year == day.Year
          && e.Date.Month == day.Month) := by
  simp only [GetEventsForMonth, AList.foldl, Calendar.stored]
  rw [foldl_append_filter (fun e => e.UserID == userID && e.Date.Year == day.Year
          && e.Date.Month == day.Month)]
  simp

/-! ## Serialized runs: the counter and the ids handed out -/

theorem step_nextID_create (c : Calendar) (u : Int) (d : Time) (t : String) :
    (step c (Op.create u d t)).nextID = wrapInt (c.nextID + 1) := rfl

theorem updateEvent_nextID (c : Calendar) (id : Int) (d : Time) (t : String) :
    (UpdateEvent c id d t).2.nextID = c.nextID := by
  unfold UpdateEvent
  cases c.events.lookup id <;> rfl

theorem deleteEvent_nextID (c : Calendar) (id : Int) :
    (DeleteEvent c id).2.nextID = c.nextID := by
  unfold DeleteEvent
  cases c.events.lookup id <;> rfl

theorem step_nextID_of_not_create (c : Calendar) (op : Op)
    (h : ∀ u d t, op ≠ Op.create u d t) : (step c op).nextID = c.nextID := by
  cases op with
  | create u d t => exact absurd rfl (h u d t)
  | update id d t => exact updateEvent_nextID c id d t
  | delete id => exact deleteEvent_nextID c id
  | forDay _ _ => rfl
  | forWeek _ _ => rfl
  | forMonth _ _ => rfl

/-- The counter after a run, whatever its length. -/
theorem run_nextID (ops : List Op) : ∀ c : Calendar, minInt ≤ c.nextID → c.nextID ≤ maxInt →
    (run c ops).nextID = wrapInt (c.nextID + (countCreates ops : Int)) := by
  induction ops with
  | nil =>
    intro c h1 h2
    simp only [run, countCreates, Nat.cast_zero, add_zero]
    exact (wrapInt_of_inRange _ h1 h2).symm
  | cons op ops ih =>
    intro c h1 h2
    cases op with
    | create u d t =>
      simp only [run, countCreates]
      rw [ih _ (by rw [step_nextID_create]; exact (wrapInt_inRange _).1)
        (by rw [step_nextID_create]; exact (wrapInt_inRange _).2), step_nextID_create,
        wrapInt_wrapInt_add]
      push_cast
      rfl
    | update id d t =>
      simp only [run, countCreates]
      rw [ih _ (by simpa [step, updateEvent_nextID] using h1)
        (by simpa [step, updateEvent_nextID] using h2)]
      simp [step, updateEvent_nextID]
    | delete id =>
      simp only [run, countCreates]
      rw [ih _ (by simpa [step, deleteEvent_nextID] using h1)
        (by simpa [step, deleteEvent_nextID] using h2)]
      simp [step, deleteEvent_nextID]
    | forDay _ _ => simpa [run, countCreates, step] using ih c h1 h2
    | forWeek _ _ => simpa [run, countCreates, step] using ih c h1 h2
    | forMonth _ _ => simpa [run, countCreates, step] using ih c h1 h2

theorem createdIDs_eq (ops : List Op) : ∀ c : Calendar, minInt ≤ c.nextID →
    c.nextID + (countCreates ops : Int) ≤ maxInt + 1 →
    createdIDs c ops = (List.range (countCreates ops)).map (fun i : Nat => c.nextID + (i : Int)) := by
  induction ops with
  | nil => intro c _ _; rfl
  | cons op ops ih =>
    intro c h1 h2
    cases op with
    | create u d t =>
      simp only [createdIDs, countCreates, List.range_succ_eq_map, List.map_cons, List.map_map]
      have hn : (CreateEvent c u d t).2.2.nextID = wrapInt (c.nextID + 1) := rfl
      have hid : (CreateEvent c u d t).1.ID = c.nextID := rfl
      rw [hid]
      simp only [countCreates, Nat.cast_add, Nat.cast_one] at h2
      congr 1
      · simp
      · by_cases h0 : countCreates ops = 0
        · have hr := ih (CreateEvent c u d t).2.2 (by rw [hn]; exact (wrapInt_inRange _).1)
            (by rw [hn, h0]; have := (wrapInt_inRange (c.nextID + 1)).2; simpa using by omega)
          rw [hr, h0]; rfl
        · have hw : wrapInt (c.nextID + 1) = c.nextID + 1 :=
            wrapInt_of_inRange _ (by omega) (by have : 0 < countCreates ops := Nat.pos_of_ne_zero h0; omega)
          rw [ih (CreateEvent c u d t).2.2 (by rw [hn, hw]; omega) (by rw [hn, hw]; omega), hn, hw]
          apply List.map_congr_left
          intro i _
          simp only [Function.comp, Nat.cast_succ]
          omega
    | update id d t =>
      simp only [createdIDs, countCreates] at *
      rw [ih _ (by simpa [step, updateEvent_nextID] using h1)
        (by simpa [step, updateEvent_nextID] using h2)]
      simp [step, updateEvent_nextID]
    | delete id =>
      simp only [createdIDs, countCreates] at *
      rw [ih _ (by simpa [step, deleteEvent_nextID] using h1)
        (by simpa [step, deleteEvent_nextID] using h2)]
      simp [step, deleteEvent_nextID]
    | forDay _ _ => simpa [createdIDs, countCreates, step] using ih c h1 h2
    | forWeek _ _ => simpa [createdIDs, countCreates, step] using ih c h1 h2
    | forMonth _ _ => simpa [createdIDs, countCreates, step] using ih c h1 h2

theorem createdIDs_append_create (ops : List Op) (u : Int) (d : Time) (t : String) :
    ∀ c : Calendar, createdIDs c (ops ++ [Op.create u d t])
      = createdIDs c ops ++ [(run c ops).nextID] := by
  induction ops with
  | nil => intro c; rfl
  | cons op ops ih =>
    intro c
    cases op <;> simp [createdIDs, run, ih, step]

theorem countCreates_replicate (n : Nat) (u : Int) (d : Time) (t : String) :
    countCreates (List.replicate n (Op.create u d t)) = n := by
  induction n with
  | zero => rfl
  | succ n ih => simp [List.replicate_succ, countCreates, ih]

theorem run_append_singleton (ops : List Op) (op : Op) :
    ∀ c : Calendar, run c (ops ++ [op]) = step (run c ops) op := by
  induction ops with
  | nil => intro c; rfl
  | cons o ops ih => intro c; exact ih (step c o)

/-! ## The invariant of the store -/

theorem inv_new : Inv NewCalendar 0 := by
  refine ⟨by decide, ?_⟩
  intro k e h
  simp [NewCalendar] at h

theorem inv_create {c : Calendar} {n : Nat} (h : Inv c n) (u : Int) (d : Time) (t : String) :
    Inv (CreateEvent c u d t).2.2 (n + 1) := by
  obtain ⟨hn, hk⟩ := h
  refine ⟨?_, ?_⟩
  · show wrapInt (c.nextID + 1) = _
    rw [hn]
    unfold wrapInt
    push_cast
    omega
  · intro k e hl
    change (c.events.insert c.nextID _).lookup k = some e at hl
    by_cases hkn : k = c.nextID
    · subst hkn
      rw [AList.lookup_insert] at hl
      cases hl
      exact ⟨rfl, n, Nat.lt_succ_self n, hn⟩
    · rw [AList.lookup_insert_ne hkn] at hl
      obtain ⟨h1, i, hi, h2⟩ := hk k e hl
      exact ⟨h1, i, Nat.lt_succ_of_lt hi, h2⟩

theorem inv_update {c : Calendar} {n : Nat} (h : Inv c n) (id : Int) (d : Time) (t : String) :
    Inv (UpdateEvent c id d t).2 n := by
  obtain ⟨hn, hk⟩ := h
  unfold UpdateEvent
  cases hl : c.events.lookup id with
  | none => exact ⟨hn, hk⟩
  | some old =>
    refine ⟨hn, ?_⟩
    intro k e hle
    change (c.events.insert id _).lookup k = some e at hle
    by_cases hkn : k = id
    · subst hkn
      rw [AList.lookup_insert] at hle
      cases hle
      exact hk k old hl
    · rw [AList.lookup_insert_ne hkn] at hle
      exact hk k e hle

theorem inv_delete {c : Calendar} {n : Nat} (h : Inv c n) (id : Int) :
    Inv (DeleteEvent c id).2 n := by
  obtain ⟨hn, hk⟩ := h
  unfold DeleteEvent
  cases hl : c.events.lookup id with
  | none => exact ⟨hn, hk⟩
  | some old =>
    refine ⟨hn, ?_⟩
    intro k e hle
    change (c.events.erase id).lookup k = some e at hle
    by_cases hkn : k = id
    · subst hkn
      rw [AList.lookup_erase] at hle
      cases hle
    · rw [AList.lookup_erase_ne hkn] at hle
      exact hk k e hle

theorem inv_step {c : Calendar} {n : Nat} (h : Inv c n) (op : Op) :
    Inv (step c op) (n + creates op) := by
  cases op with
  | create u d t => exact inv_create h u d t
  | update id d t => exact inv_update h id d t
  | delete id => exact inv_delete h id
  | forDay _ _ => exact h
  | forWeek _ _ => exact h
  | forMonth _ _ => exact h

theorem countCreates_cons (op : Op) (ops : List Op) :
    countCreates (op :: ops) = creates op + countCreates ops := by
  cases op <;> simp [countCreates, creates, Nat.add_comm]

theorem inv_run (ops : List Op) : ∀ (c : Calendar) (n : Nat), Inv c n →
    Inv (run c ops) (n + countCreates ops) := by
  induction ops with
  | nil => intro c n h; exact h
  | cons op ops ih =>
    intro c n h
    rw [countCreates_cons, ← Nat.add_assoc]
    exact ih _ _ (inv_step h op)

/-- Once `id`, created as number `j`, is absent, it stays absent and is not
handed out as long as fewer than `2 ^ 64` creates separate a create from `j`. -/
theorem absent_run (id : Int) (j : Nat) (hid : id = wrapInt (1 + (j : Int))) (ops : List Op) :
    ∀ (c : Calendar) (n : Nat), Inv c n → id ∉ c.events → j < n →
      n + countCreates ops ≤ 2 ^ 64 + j →
      id ∉ (run c ops).events ∧ id ∉ createdIDs c ops := by
  induction ops with
  | nil => intro c n _ habs _ _; exact ⟨habs, by simp [createdIDs]⟩
  | cons op ops ih =>
    intro c n hinv habs hj hN
    rw [countCreates_cons] at hN
    have hnext := ih (step c op) (n + creates op) (inv_step hinv op)
    cases op with
    | create u d t =>
      simp only [creates] at hN hnext
      have hne : id ≠ c.nextID := by
        rw [hid, hinv.1]
        unfold wrapInt
        omega
      have habs' : id ∉ (step c (Op.create u d t)).events := by
        show id ∉ c.events.insert c.nextID _
        rw [AList.mem_insert]
        exact fun h => h.elim hne habs
      obtain ⟨h1, h2⟩ := hnext habs' (by omega) (by omega)
      refine ⟨h1, ?_⟩
      simp only [createdIDs, List.mem_cons, not_or]
      exact ⟨hne, h2⟩
    | update k d t =>
      simp only [creates, Nat.add_zero, Nat.zero_add] at hN hnext
      have habs' : id ∉ (step c (Op.update k d t)).events := by
        show id ∉ (UpdateEvent c k d t).2.events
        unfold UpdateEvent
        cases hl : c.events.lookup k with
        | none => exact habs
        | some old =>
          show id ∉ c.events.insert k _
          rw [AList.mem_insert]
          rintro (h | h)
          · subst h
            exact habs (AList.lookup_isSome.mp (by rw [hl]; rfl))
          · exact habs h
      exact hnext habs' hj hN
    | delete k =>
      simp only [creates, Nat.add_zero, Nat.zero_add] at hN hnext
      have habs' : id ∉ (step c (Op.delete k)).events := by
        show id ∉ (DeleteEvent c k).2.events
        unfold DeleteEvent
        cases hl : c.events.lookup k with
        | none => exact habs
        | some old =>
          show id ∉ c.events.erase k
          rw [AList.mem_erase]
          exact fun h => habs h.2
      exact hnext habs' hj hN
    | forDay _ _ =>
      simp only [creates, Nat.add_zero, Nat.zero_add] at hN hnext
      exact hnext habs hj hN
    | forWeek _ _ =>
      simp only [creates, Nat.add_zero, Nat.zero_add] at hN hnext
      exact hnext habs hj hN
    | forMonth _ _ =>
      simp only [creates, Nat.add_zero, Nat.zero_add] at hN hnext
      exact hnext habs hj hN

/-! ## Properties of the operations -/

/-- C1, as stated, fails: on the store state whose counter is the largest `int`,
`CreateEvent` leaves the counter at the smallest `int`, not at a value larger by
one. -/
theorem createEvent_nextID_wraps :
    (CreateEvent { events := ∅, nextID := maxInt } 1 (Date 2023 12 25 0 0 0 0)
        "Christmas").2.2.nextID = minInt
      ∧ (CreateEvent { events := ∅, nextID := maxInt } 1 (Date 2023 12 25 0 0 0 0)
        "Christmas").2.2.nextID ≠ maxInt + 1 := by
  decide

/-- C1, amended: for every store state and all arguments, `CreateEvent` returns
no error and the event made of the counter value and the three arguments, and
afterwards that event is stored under its ID; when the counter is an `int` below
the largest one it is larger by exactly one afterwards, and when it is the
largest `int` it is the smallest `int` afterwards. -/
theorem createEvent_spec (c : Calendar) (userID : Int) (date : Time) (title : String) :
    (CreateEvent c userID date title).2.1 = none
      ∧ (CreateEvent c userID date title).1
          = { ID := c.nextID, UserID := userID, Date := date, Title := title }
      ∧ (CreateEvent c userID date title).2.2.events.lookup
            (CreateEvent c userID date title).1.ID
          = some (CreateEvent c userID date title).1
      ∧ (minInt ≤ c.nextID → c.nextID < maxInt →
          (CreateEvent c userID date title).2.2.nextID = c.nextID + 1)
      ∧ (c.nextID = maxInt → (CreateEvent c userID date title).2.2.nextID = minInt) := by
  refine ⟨rfl, rfl, ?_, ?_, ?_⟩
  · simp [CreateEvent]
  · intro hlo hhi
    simp only [CreateEvent]
    exact wrapInt_of_inRange _ (by omega) (by omega)
  · intro hmax
    simp only [CreateEvent, hmax]
    decide

/-- On a new store the first create returns id 1 and leaves the counter at 2. -/
theorem createEvent_spec_witness :
    (minInt ≤ NewCalendar.nextID ∧ NewCalendar.nextID < maxInt)
      ∧ (CreateEvent NewCalendar 1 (Date 2023 12 25 0 0 0 0) "Christmas").1.ID = 1
      ∧ (CreateEvent NewCalendar 1 (Date 2023 12 25 0 0 0 0) "Christmas").2.2.nextID = 2 :=
  ⟨by decide,
    congrArg Event.ID
      (createEvent_spec NewCalendar 1 (Date 2023 12 25 0 0 0 0) "Christmas").2.1,
    (createEvent_spec NewCalendar 1 (Date 2023 12 25 0 0 0 0) "Christmas").2.2.2.1
      (by decide) (by decide)⟩

/-- C2, as stated, fails: the last of `2 ^ 63` creates on a new store returns the
wrapped counter, which is negative. -/
theorem createdIDs_not_positive :
    ¬ ∀ id ∈ createdIDs NewCalendar
        (List.replicate (2 ^ 63) (Op.create 1 (Date 2023 12 25 0 0 0 0) "Christmas")),
      0 < id := by
  intro h
  have e : (2 : Nat) ^ 63 = 9223372036854775807 + 1 := by norm_num
  rw [e, List.replicate_succ', createdIDs_append_create] at h
  have hmem := h _ (List.mem_append_right _ (List.mem_singleton_self _))
  rw [run_nextID _ _ (by decide) (by decide), countCreates_replicate] at hmem
  revert hmem
  decide

/-- C2, amended: for every sequence of calls on a new store that holds at most
`2 ^ 63 - 1` creates, interleaved at will with updates, deletes and queries, the
ids returned by the creates are 1, 2, 3, ... in call order; so they are
positive, strictly increasing and pairwise distinct. -/
theorem createdIDs_strictly_increasing (ops : List Op)
    (h : (countCreates ops : Int) ≤ maxInt) :
    createdIDs NewCalendar ops
        = (List.range (countCreates ops)).map (fun i : Nat => (i : Int) + 1)
      ∧ (∀ id ∈ createdIDs NewCalendar ops, 0 < id)
      ∧ (createdIDs NewCalendar ops).Pairwise (fun a b => a < b)
      ∧ (createdIDs NewCalendar ops).Nodup := by
  have heq : createdIDs NewCalendar ops
      = (List.range (countCreates ops)).map (fun i : Nat => (i : Int) + 1) := by
    rw [createdIDs_eq ops NewCalendar (by decide) (by simp only [NewCalendar]; omega)]
    apply List.map_congr_left
    intro i _
    simp only [NewCalendar]
    omega
  have hpw : (createdIDs NewCalendar ops).Pairwise (fun a b => a < b) := by
    rw [heq, List.pairwise_map]
    exact (List.pairwise_lt_range _).imp (by intro a b hab; omega)
  refine ⟨heq, ?_, hpw, hpw.imp (fun hab => ne_of_lt hab)⟩
  intro id hid
  rw [heq, List.mem_map] at hid
  obtain ⟨i, _, rfl⟩ := hid
  omega

/-- Two creates with a delete between them return the ids 1 and 2. -/
theorem createdIDs_strictly_increasing_witness :
    createdIDs NewCalendar
        [Op.create 1 (Date 2023 12 25 0 0 0 0) "Christmas", Op.delete 1,
          Op.create 1 (Date 2023 12 26 0 0 0 0) "Boxing Day"] = [1, 2] :=
  (createdIDs_strictly_increasing
    [Op.create 1 (Date 2023 12 25 0 0 0 0) "Christmas", Op.delete 1,
      Op.create 1 (Date 2023 12 26 0 0 0 0) "Boxing Day"] (by decide)).1

/-- C3: for every store state and every id that is not a key of the map,
`UpdateEvent` returns `ErrEventNotFound` and the state after the call, map and
counter, is the state before it, whatever the date and the title. -/
theorem updateEvent_notFound (c : Calendar) (id : Int) (date : Time) (title : String)
    (h : id ∉ c.events) :
    UpdateEvent c id date title = (some StoreError.ErrEventNotFound, c) := by
  have hl : c.events.lookup id = none := AList.lookup_eq_none.mpr h
  simp [UpdateEvent, hl]

/-- Updating id 999 on a new store, as the test does. -/
theorem updateEvent_notFound_witness :
    UpdateEvent NewCalendar 999 (Date 2023 12 25 0 0 0 0) "Christmas"
      = (some StoreError.ErrEventNotFound, NewCalendar) :=
  updateEvent_notFound NewCalendar 999 (Date 2023 12 25 0 0 0 0) "Christmas"
    (AList.not_mem_empty 999)

/-- C4: for every store state and every id stored in the map, `UpdateEvent`
returns no error; afterwards the event under id has the new date and title and
the ID and UserID it had, every other id maps to what it mapped to, the set of
stored ids, their number and the counter are unchanged. -/
theorem updateEvent_found (c : Calendar) (id : Int) (date : Time) (title : String)
    (old : Event) (h : c.events.lookup id = some old) :
    (UpdateEvent c id date title).1 = none
      ∧ (UpdateEvent c id date title).2.events.lookup id
          = some { ID := old.ID, UserID := old.UserID, Date := date, Title := title }
      ∧ (∀ k, k ≠ id →
          (UpdateEvent c id date title).2.events.lookup k = c.events.lookup k)
      ∧ (∀ k, k ∈ (UpdateEvent c id date title).2.events ↔ k ∈ c.events)
      ∧ (UpdateEvent c id date title).2.len = c.len
      ∧ (UpdateEvent c id date title).2.nextID = c.nextID := by
  have hmem : id ∈ c.events := by
    rw [← AList.lookup_isSome, h]; rfl
  have hU : UpdateEvent c id date title
      = (none, { c with events := c.events.insert id { old with Date := date, Title := title } }) := by
    simp [UpdateEvent, h]
  rw [hU]
  refine ⟨rfl, AList.lookup_insert _, ?_, ?_, ?_, rfl⟩
  · intro k hk
    exact AList.lookup_insert_ne hk
  · intro k
    rw [AList.mem_insert]
    constructor
    · rintro (rfl | hk)
      · exact hmem
      · exact hk
    · exact Or.inr
  · exact length_insert_of_lookup h

/-- The update of the test: event 1 moves to December 26 and gets a new title. -/
theorem updateEvent_found_witness :
    (UpdateEvent (CreateEvent NewCalendar 1 (Date 2023 12 25 0 0 0 0) "Christmas").2.2 1
        (Date 2023 12 26 0 0 0 0) "Boxing Day").2.events.lookup 1
      = some { ID := 1, UserID := 1, Date := Date 2023 12 26 0 0 0 0, Title := "Boxing Day" } :=
  (updateEvent_found (CreateEvent NewCalendar 1 (Date 2023 12 25 0 0 0 0) "Christmas").2.2 1
    (Date 2023 12 26 0 0 0 0) "Boxing Day"
    { ID := 1, UserID := 1, Date := Date 2023 12 25 0 0 0 0, Title := "Christmas" }
    (by decide)).2.1

/-- C5: for every store state and every id, `DeleteEvent` returns
`ErrEventNotFound` exactly when id is not a key of the map, and whenever it
returns an error the state after the call, map and counter, is the state before
it. -/
theorem deleteEvent_fails_iff (c : Calendar) (id : Int) :
    ((DeleteEvent c id).1 = some StoreError.ErrEventNotFound ↔ id ∉ c.events)
      ∧ ((DeleteEvent c id).1 ≠ none → (DeleteEvent c id).2 = c) := by
  unfold DeleteEvent
  cases h : c.events.lookup id with
  | none => simp [AList.lookup_eq_none.mp h]
  | some e =>
    have hmem : id ∈ c.events := by
      rw [← AList.lookup_isSome, h]; rfl
    simp [hmem]

/-- C6: for every store state and every id that is a key of the map,
`DeleteEvent` returns no error and the map after the call is the map before it
without the entry of id: id is no key any more, every other id maps to what it
mapped to, the number of stored events is smaller by one, and the counter is
unchanged. -/
theorem deleteEvent_found (c : Calendar) (id : Int) (h : id ∈ c.events) :
    (DeleteEvent c id).1 = none
      ∧ (DeleteEvent c id).2.events = c.events.erase id
      ∧ id ∉ (DeleteEvent c id).2.events
      ∧ (∀ k, k ≠ id → (DeleteEvent c id).2.events.lookup k = c.events.lookup k)
      ∧ (∀ k, k ∈ (DeleteEvent c id).2.events ↔ k ≠ id ∧ k ∈ c.events)
      ∧ (DeleteEvent c id).2.len + 1 = c.len
      ∧ (DeleteEvent c id).2.nextID = c.nextID := by
  obtain ⟨e, he⟩ := Option.isSome_iff_exists.mp (AList.lookup_isSome.mpr h)
  have hD : DeleteEvent c id = (none, { c with events := c.events.erase id }) := by
    simp [DeleteEvent, he]
  rw [hD]
  refine ⟨rfl, rfl, ?_, ?_, ?_, ?_, rfl⟩
  · simp [AList.mem_erase]
  · intro k hk
    exact AList.lookup_erase_ne hk
  · intro k
    exact AList.mem_erase
  · exact length_erase_of_lookup he

/-- The delete of the test: one event before, none after. -/
theorem deleteEvent_found_witness :
    (CreateEvent NewCalendar 1 (Date 2023 12 25 0 0 0 0) "Christmas").2.2.len = 1
      ∧ (DeleteEvent (CreateEvent NewCalendar 1 (Date 2023 12 25 0 0 0 0)
          "Christmas").2.2 1).2.len + 1
        = (CreateEvent NewCalendar 1 (Date 2023 12 25 0 0 0 0) "Christmas").2.2.len :=
  ⟨by decide,
    (deleteEvent_found (CreateEvent NewCalendar 1 (Date 2023 12 25 0 0 0 0) "Christmas").2.2 1
      (by decide)).2.2.2.2.2.1⟩

/-- C7, as stated, fails: event 1 is created and deleted on a new store; the
last of `2 ^ 64` later creates returns id 1 again, and the query for its day
returns an event whose ID is 1. -/
theorem deleted_id_returned_again :
    (DeleteEvent (run NewCalendar [Op.create 1 (Date 2023 12 25 0 0 0 0) "Christmas"]) 1).1 = none
      ∧ (1 : Int) ∈ createdIDs
          (DeleteEvent (run NewCalendar [Op.create 1 (Date 2023 12 25 0 0 0 0) "Christmas"]) 1).2
          (List.replicate (2 ^ 64) (Op.create 1 (Date 2023 12 25 0 0 0 0) "Christmas"))
      ∧ ∃ e ∈ GetEventsForDay
          (run (DeleteEvent (run NewCalendar
              [Op.create 1 (Date 2023 12 25 0 0 0 0) "Christmas"]) 1).2
            (List.replicate (2 ^ 64) (Op.create 1 (Date 2023 12 25 0 0 0 0) "Christmas")))
          1 (Date 2023 12 25 0 0 0 0), e.ID = 1 := by
  have e64 : (2 : Nat) ^ 64 = 18446744073709551615 + 1 := by norm_num
  have hnext : (run (DeleteEvent (run NewCalendar
        [Op.create 1 (Date 2023 12 25 0 0 0 0) "Christmas"]) 1).2
      (List.replicate 18446744073709551615
        (Op.create 1 (Date 2023 12 25 0 0 0 0) "Christmas"))).nextID = 1 := by
    rw [run_nextID _ _ (by decide) (by decide), countCreates_replicate]
    decide
  refine ⟨by decide, ?_, ?_⟩
  · rw [e64, List.replicate_succ', createdIDs_append_create, hnext]
    exact List.mem_append_right _ (List.mem_singleton_self _)
  · rw [e64, List.replicate_succ', run_append_singleton]
    refine ⟨{ ID := 1, UserID := 1, Date := Date 2023 12 25 0 0 0 0, Title := "Christmas" },
      ?_, rfl⟩
    rw [getEventsForDay_eq, List.mem_filter, mem_stored_iff]
    refine ⟨⟨1, ?_⟩, by simp [isSameDay_self]⟩
    show (AList.insert _ _ _).lookup 1 = _
    rw [hnext]
    exact AList.lookup_insert _

/-- C7, amended: on a store that started new, once `DeleteEvent` of id has
returned no error, and as long as the creates before and after it number at most
`2 ^ 64` together, no later sequence of calls leads to a state in which one of
the three queries returns an event whose ID is id, for any owner and day, and no
later `CreateEvent` returns id. -/
theorem deleted_id_never_returned (ops1 ops2 : List Op) (id : Int)
    (hdel : (DeleteEvent (run NewCalendar ops1) id).1 = none)
    (hN : countCreates ops1 + countCreates ops2 ≤ 2 ^ 64) :
    (∀ userID day,
        (∀ e ∈ GetEventsForDay
            (run (DeleteEvent (run NewCalendar ops1) id).2 ops2) userID day, e.ID ≠ id)
          ∧ (∀ e ∈ GetEventsForWeek
              (run (DeleteEvent (run NewCalendar ops1) id).2 ops2) userID day, e.ID ≠ id)
          ∧ (∀ e ∈ GetEventsForMonth
              (run (DeleteEvent (run NewCalendar ops1) id).2 ops2) userID day, e.ID ≠ id))
      ∧ id ∉ createdIDs (DeleteEvent (run NewCalendar ops1) id).2 ops2 := by
  have hinv1 : Inv (run NewCalendar ops1) (countCreates ops1) := by
    simpa using inv_run ops1 NewCalendar 0 inv_new
  obtain ⟨old, hold⟩ : ∃ old, (run NewCalendar ops1).events.lookup id = some old := by
    cases hl : (run NewCalendar ops1).events.lookup id with
    | none => simp [DeleteEvent, hl] at hdel
    | some old => exact ⟨old, rfl⟩
  obtain ⟨_, j, hj, hid⟩ := hinv1.2 id old hold
  have hD : DeleteEvent (run NewCalendar ops1) id
      = (none, { run NewCalendar ops1 with events := (run NewCalendar ops1).events.erase id }) := by
    simp [DeleteEvent, hold]
  have hinv1' : Inv (DeleteEvent (run NewCalendar ops1) id).2 (countCreates ops1) :=
    inv_delete hinv1 id
  have habs : id ∉ (DeleteEvent (run NewCalendar ops1) id).2.events := by
    rw [hD]
    show id ∉ (run NewCalendar ops1).events.erase id
    simp [AList.mem_erase]
  obtain ⟨hnot, hcre⟩ := absent_run id j hid ops2 _ _ hinv1' habs hj (by omega)
  have hinv2 := inv_run ops2 _ _ hinv1'
  have hstored : ∀ e ∈ (run (DeleteEvent (run NewCalendar ops1) id).2 ops2).stored,
      e.ID ≠ id := by
    intro e he heq
    obtain ⟨k, hk⟩ := (mem_stored_iff _ e).mp he
    have hek := (hinv2.2 k e hk).1
    have hmem : k ∈ (run (DeleteEvent (run NewCalendar ops1) id).2 ops2).events :=
      AList.lookup_isSome.mp (by rw [hk]; rfl)
    have hkid : k = id := hek.symm.trans heq
    exact hnot (hkid ▸ hmem)
  refine ⟨fun userID day => ⟨?_, ?_, ?_⟩, hcre⟩
  · intro e he
    rw [getEventsForDay_eq] at he
    exact hstored e (List.mem_filter.mp he).1
  · intro e he
    rw [getEventsForWeek_eq] at he
    exact hstored e (List.mem_filter.mp he).1
  · intro e he
    rw [getEventsForMonth_eq] at he
    exact hstored e (List.mem_filter.mp he).1

/-- After event 1 is created and deleted, the next create does not return 1. -/
theorem deleted_id_never_returned_witness :
    1 ∉ createdIDs
      (DeleteEvent (run NewCalendar [Op.create 1 (Date 2023 12 25 0 0 0 0) "Christmas"]) 1).2
      [Op.create 1 (Date 2023 12 26 0 0 0 0) "Boxing Day"] :=
  (deleted_id_never_returned [Op.create 1 (Date 2023 12 25 0 0 0 0) "Christmas"]
    [Op.create 1 (Date 2023 12 26 0 0 0 0) "Boxing Day"] 1 (by decide) (by decide)).2

/-! ## Properties of the queries -/

/-- C8: for every store state, owner and day, the result of `GetEventsForDay`
is, up to order, the list of the stored events, one for each key, kept when
their UserID is the owner and their Date has the year, the month and the day of
the month of the day asked for; no other event is in the result, and it is
empty when no stored event matches. -/
theorem getEventsForDay_spec (c : Calendar) (userID : Int) (day : Time) :
    (GetEventsForDay c userID day).Perm
        (c.stored.filter (fun e => decide (e.UserID = userID ∧ e.Date.Year = day.Year
          ∧ e.Date.Month = day.Month ∧ e.Date.Day = day.Day)))
      ∧ (∀ e, e ∈ GetEventsForDay c userID day ↔
          (∃ k, c.events.lookup k = some e) ∧ e.UserID = userID ∧ e.Date.Year = day.Year
            ∧ e.Date.Month = day.Month ∧ e.Date.Day = day.Day)
      ∧ ((∀ k e, c.events.lookup k = some e → ¬ (e.UserID = userID ∧ e.Date.Year = day.Year
            ∧ e.Date.Month = day.Month ∧ e.Date.Day = day.Day))
          → GetEventsForDay c userID day = []) := by
  have hfun : (fun e : Event => e.UserID == userID && isSameDay e.Date day)
      = (fun e => decide (e.UserID = userID ∧ e.Date.Year = day.Year
          ∧ e.Date.Month = day.Month ∧ e.Date.Day = day.Day)) := by
    funext e
    rw [Bool.eq_iff_iff]
    simp [isSameDay_iff_ymd]
  rw [getEventsForDay_eq, hfun]
  refine ⟨List.Perm.refl _, ?_, ?_⟩
  · intro e
    simp [List.mem_filter, mem_stored_iff]
  · intro hnone
    rw [List.filter_eq_nil_iff]
    intro e he
    obtain ⟨k, hk⟩ := (mem_stored_iff c e).mp he
    simpa using hnone k e hk

/-- C9: for every store state, owner and day, the result of `GetEventsForWeek`
is, up to order, the list of the stored events, one for each key, kept when
their UserID is the owner and `ISOWeek` of their Date is the pair of the day
asked for; with events of owner 1 on 2023-12-25, 2023-12-26 and 2024-01-01 the
query for 2023-12-25 returns the first two and not the third. -/
theorem getEventsForWeek_spec (c : Calendar) (userID : Int) (day : Time) :
    ((GetEventsForWeek c userID day).Perm
        (c.stored.filter (fun e => decide (e.UserID = userID ∧ e.Date.ISOWeek = day.ISOWeek)))
      ∧ (∀ e, e ∈ GetEventsForWeek c userID day ↔
          (∃ k, c.events.lookup k = some e) ∧ e.UserID = userID
            ∧ e.Date.ISOWeek = day.ISOWeek))
      ∧ GetEventsForWeek
          (run NewCalendar
            [Op.create 1 (Date 2023 12 25 0 0 0 0) "Christmas",
              Op.create 1 (Date 2023 12 26 0 0 0 0) "Boxing Day",
              Op.create 1 (Date 2024 1 1 0 0 0 0) "New Year"])
          1 (Date 2023 12 25 0 0 0 0)
        = [{ ID := 2, UserID := 1, Date := Date 2023 12 26 0 0 0 0, Title := "Boxing Day" },
            { ID := 1, UserID := 1, Date := Date 2023 12 25 0 0 0 0, Title := "Christmas" }] := by
  have hfun : (fun e : Event => e.UserID == userID && e.Date.ISOWeek.1 == day.ISOWeek.1
          && e.Date.ISOWeek.2 == day.ISOWeek.2)
      = (fun e => decide (e.UserID = userID ∧ e.Date.ISOWeek = day.ISOWeek)) := by
    funext e
    rw [Bool.eq_iff_iff]
    simp [Prod.ext_iff, and_assoc]
  refine ⟨?_, by decide⟩
  rw [getEventsForWeek_eq, hfun]
  refine ⟨List.Perm.refl _, ?_⟩
  intro e
  simp [List.mem_filter, mem_stored_iff]

/-- C10: for every store state, owner and day, the result of
`GetEventsForMonth` is, up to order, the list of the stored events, one for each
key, kept when their UserID is the owner and their Date has the year and the
month of the day asked for; an event of another owner or of another year is
never in the result. -/
theorem getEventsForMonth_spec (c : Calendar) (userID : Int) (day : Time) :
    (GetEventsForMonth c userID day).Perm
        (c.stored.filter (fun e => decide (e.UserID = userID ∧ e.Date.Year = day.Year
          ∧ e.Date.Month = day.Month)))
      ∧ (∀ e, e ∈ GetEventsForMonth c userID day ↔
          (∃ k, c.events.lookup k = some e) ∧ e.UserID = userID ∧ e.Date.Year = day.Year
            ∧ e.Date.Month = day.Month)
      ∧ (∀ e, e.UserID ≠ userID ∨ e.Date.Year ≠ day.Year →
          e ∉ GetEventsForMonth c userID day) := by
  have hfun : (fun e : Event => e.UserID == userID && e.Date.Year == day.Year
          && e.Date.Month == day.Month)
      = (fun e => decide (e.UserID = userID ∧ e.Date.Year = day.Year
          ∧ e.Date.Month = day.Month)) := by
    funext e
    rw [Bool.eq_iff_iff]
    simp [and_assoc]
  rw [getEventsForMonth_eq, hfun]
  refine ⟨List.Perm.refl _, ?_, ?_⟩
  · intro e
    simp [List.mem_filter, mem_stored_iff]
  · intro e he hmem
    simp only [List.mem_filter, decide_eq_true_eq] at hmem
    rcases he with he | he
    · exact he hmem.2.1
    · exact he hmem.2.2.1

/-! ## Weeks -/

theorem absYearDay_congr (a b : Nat) (h : a / 86400 = b / 86400) :
    absYearDay a = absYearDay b := by
  simp only [absYearDay, secondsPerDay, h]

theorem inv_keys_range {c : Calendar} {n : Nat} (h : Inv c n) (hn : (n : Int) < maxInt) :
    ∀ k, k ∈ c.events → 1 ≤ k ∧ k < c.nextID := by
  intro k hk
  obtain ⟨e, he⟩ := Option.isSome_iff_exists.mp (AList.lookup_isSome.mpr hk)
  obtain ⟨_, i, hi, hki⟩ := h.2 k e he
  rw [hki, h.1]
  unfold maxInt at hn
  unfold wrapInt
  omega

theorem inv_nextID_fresh {c : Calendar} {n : Nat} (h : Inv c n) (hn : n < 2 ^ 64) :
    c.nextID ∉ c.events := by
  intro hk
  obtain ⟨e, he⟩ := Option.isSome_iff_exists.mp (AList.lookup_isSome.mpr hk)
  obtain ⟨_, i, hi, hki⟩ := h.2 _ e he
  rw [h.1] at hki
  unfold wrapInt at hki
  omega

theorem createEvent_keeps {c : Calendar} (h : c.nextID ∉ c.events) (u : Int) (d : Time)
    (t : String) :
    (∀ k, k ∈ c.events →
        (CreateEvent c u d t).2.2.events.lookup k = c.events.lookup k)
      ∧ (CreateEvent c u d t).2.2.len = c.len + 1 := by
  constructor
  · intro k hk
    have hne : k ≠ c.nextID := fun hkn => h (hkn ▸ hk)
    exact AList.lookup_insert_ne hne
  · show (c.events.insert c.nextID _).entries.length = c.events.entries.length + 1
    rw [AList.insert_entries_of_neg h, List.length_cons]

theorem run_cons (c : Calendar) (op : Op) (ops : List Op) :
    run c (op :: ops) = run (step c op) ops := rfl

theorem mem_run_replicate_create (u : Int) (d : Time) (t : String) (k : Int) (n : Nat) :
    ∀ c : Calendar, k ∈ c.events → k ∈ (run c (List.replicate n (Op.create u d t))).events := by
  induction n with
  | zero => intro c h; exact h
  | succ n ih =>
    intro c h
    rw [List.replicate_succ]
    apply ih
    show k ∈ c.events.insert c.nextID _
    rw [AList.mem_insert]
    exact Or.inr h

/-! ## Properties of the dates -/

/-- C12: for every two times, `isSameDay` holds exactly when they have the same
year, month and day of the month; giving either time any other hour, minute,
second and nanosecond on its day leaves the result as it is; the two cases of
the test evaluate to true and false. -/
theorem isSameDay_spec (t1 t2 : Time) :
    (isSameDay t1 t2 = true
        ↔ t1.Year = t2.Year ∧ t1.Month = t2.Month ∧ t1.Day = t2.Day)
      ∧ (∀ h1 m1 s1 n1 h2 m2 s2 n2 : Nat,
          h1 < 24 → m1 < 60 → s1 < 60 → h2 < 24 → m2 < 60 → s2 < 60 →
          ((withClock t1 h1 m1 s1 n1).Hour = h1 ∧ (withClock t1 h1 m1 s1 n1).Minute = m1
              ∧ (withClock t1 h1 m1 s1 n1).Second = s1
              ∧ (withClock t1 h1 m1 s1 n1).Nanosecond = n1)
            ∧ isSameDay (withClock t1 h1 m1 s1 n1) (withClock t2 h2 m2 s2 n2)
              = isSameDay t1 t2)
      ∧ isSameDay (Date 2023 12 25 10 30 0 0) (Date 2023 12 25 15 45 0 0) = true
      ∧ isSameDay (Date 2023 12 25 10 30 0 0) (Date 2023 12 26 10 30 0 0) = false := by
  refine ⟨isSameDay_iff_ymd t1 t2, ?_, by decide, by decide⟩
  intro h1 m1 s1 n1 h2 m2 s2 n2 hh1 hm1 hs1 hh2 hm2 hs2
  have e1 : absYearDay (withClock t1 h1 m1 s1 n1).abs = absYearDay t1.abs :=
    absYearDay_congr _ _ (by simp only [withClock, secondsPerDay]; omega)
  have e2 : absYearDay (withClock t2 h2 m2 s2 n2).abs = absYearDay t2.abs :=
    absYearDay_congr _ _ (by simp only [withClock, secondsPerDay]; omega)
  refine ⟨⟨?_, ?_, ?_, rfl⟩, ?_⟩
  · simp only [Time.Hour, withClock, secondsPerDay]; omega
  · simp only [Time.Minute, withClock, secondsPerDay]; omega
  · simp only [Time.Second, withClock, secondsPerDay]; omega
  · simp only [isSameDay, Time.Year, Time.YearDay, e1, e2]

/-! ## Properties of the handlers -/

/-- C14: for every store state and every decoded request with a positive id
that is not stored, and for the update also a title that is not empty and a date
that parses, the update and the delete handler answer with status 503 and the
error text `event not found` and leave the store as it is; the message of
`ErrEventNotFound` is the text the handlers compare with. -/
theorem handlers_notFound (c : Calendar) (contentType : String)
    (req : UpdateEventRequest) (del : DeleteEventRequest) (date : Time)
    (hid : 0 < req.ID) (htitle : req.Title ≠ "") (hdate : parseDate req.Date = some date)
    (habs : req.ID ∉ c.events) (hdel : 0 < del.ID) (hdabs : del.ID ∉ c.events) :
    UpdateEventHandler c contentType (some req)
        = ({ status := 503, error := some "event not found", result := none }, c)
      ∧ DeleteEventHandler c contentType (some del)
        = ({ status := 503, error := some "event not found", result := none }, c)
      ∧ StoreError.ErrEventNotFound.Error = "event not found" := by
  have hU : UpdateEvent c req.ID date req.Title = (some StoreError.ErrEventNotFound, c) := by
    simp [UpdateEvent, AList.lookup_eq_none.mpr habs]
  have hD : DeleteEvent c del.ID = (some StoreError.ErrEventNotFound, c) := by
    simp [DeleteEvent, AList.lookup_eq_none.mpr hdabs]
  refine ⟨?_, ?_, rfl⟩
  · simp [UpdateEventHandler, not_le.mpr hid, htitle, hdate, hU, StoreError.Error, JSONError,
      StatusServiceUnavailable]
  · simp [DeleteEventHandler, not_le.mpr hdel, hD, StoreError.Error, JSONError,
      StatusServiceUnavailable]

/-- The requests of the tests: id 999 on a store that holds event 1. -/
theorem handlers_notFound_witness :
    (UpdateEventHandler
        (CreateEvent NewCalendar 1 (Date 2023 12 25 0 0 0 0) "Christmas").2.2
        "application/json"
        (some { ID := 999, Date := "2023-12-26", Title := "Boxing Day" })).1.status
      = StatusServiceUnavailable
      ∧ (DeleteEventHandler
          (CreateEvent NewCalendar 1 (Date 2023 12 25 0 0 0 0) "Christmas").2.2
          "application/json" (some { ID := 999 })).1.status
        = StatusServiceUnavailable :=
  ⟨congrArg (fun r => r.1.status)
      (handlers_notFound (CreateEvent NewCalendar 1 (Date 2023 12 25 0 0 0 0) "Christmas").2.2
        "application/json" { ID := 999, Date := "2023-12-26", Title := "Boxing Day" }
        { ID := 999 } (Date 2023 12 26 0 0 0 0)
        (by decide) (by decide) (by decide) (by decide) (by decide) (by decide)).1,
    congrArg (fun r => r.1.status)
      (handlers_notFound (CreateEvent NewCalendar 1 (Date 2023 12 25 0 0 0 0) "Christmas").2.2
        "application/json" { ID := 999, Date := "2023-12-26", Title := "Boxing Day" }
        { ID := 999 } (Date 2023 12 26 0 0 0 0)
        (by decide) (by decide) (by decide) (by decide) (by decide) (by decide)).2.1⟩

/-! ## The invariant of the reachable states -/

/-- C15, as stated, fails: after `2 ^ 63 - 1` creates on a new store the key 1 is
stored and the counter has wrapped to the smallest `int`, so the key is not
below the counter. -/
theorem key_not_below_nextID :
    ¬ ∀ k, k ∈ (run NewCalendar (List.replicate (2 ^ 63 - 1)
          (Op.create 1 (Date 2023 12 25 0 0 0 0) "Christmas"))).events →
        1 ≤ k ∧ k < (run NewCalendar (List.replicate (2 ^ 63 - 1)
          (Op.create 1 (Date 2023 12 25 0 0 0 0) "Christmas"))).nextID := by
  intro h
  have e : (2 : Nat) ^ 63 - 1 = 9223372036854775806 + 1 := by norm_num
  rw [e] at h
  have hmem : (1 : Int) ∈ (run NewCalendar (List.replicate (9223372036854775806 + 1)
      (Op.create 1 (Date 2023 12 25 0 0 0 0) "Christmas"))).events := by
    rw [List.replicate_succ, run_cons]
    exact mem_run_replicate_create _ _ _ _ _ _ (by decide)
  have hlt := (h 1 hmem).2
  rw [run_nextID _ _ (by decide) (by decide), countCreates_replicate] at hlt
  revert hlt
  decide

/-- C15, amended: in every state reached from a new store by a sequence of
calls, every entry of the map is an event stored under its own ID; when the
sequence holds fewer than `2 ^ 63 - 1` creates, every key is at least 1 and
below the counter; when it holds fewer than `2 ^ 64` creates, the counter is not
a key, so the next `CreateEvent` leaves every stored entry as it is and makes
the map larger by one. -/
theorem reachable_invariant (ops : List Op) :
    (∀ k e, (run NewCalendar ops).events.lookup k = some e → e.ID = k)
      ∧ ((countCreates ops : Int) < maxInt →
          ∀ k, k ∈ (run NewCalendar ops).events → 1 ≤ k ∧ k < (run NewCalendar ops).nextID)
      ∧ (countCreates ops < 2 ^ 64 → ∀ userID date title,
          (run NewCalendar ops).nextID ∉ (run NewCalendar ops).events
            ∧ (∀ k, k ∈ (run NewCalendar ops).events →
                (CreateEvent (run NewCalendar ops) userID date title).2.2.events.lookup k
                  = (run NewCalendar ops).events.lookup k)
            ∧ (CreateEvent (run NewCalendar ops) userID date title).2.2.len
                = (run NewCalendar ops).len + 1) := by
  have hinv : Inv (run NewCalendar ops) (countCreates ops) := by
    simpa using inv_run ops NewCalendar 0 inv_new
  refine ⟨fun k e h => (hinv.2 k e h).1, fun hn => inv_keys_range hinv hn, ?_⟩
  intro hn userID date title
  have hfresh := inv_nextID_fresh hinv hn
  exact ⟨hfresh, createEvent_keeps hfresh userID date title⟩


end WbCalendar
